import Mathlib

/-!
Verification of the CognitionFlow Agent Conversation Orchestrator.

This file gives a shallow embedding of the orchestration subsystem
(`src/cognitionflow/orchestration.py`, `src/cognitionflow/agents.py`, and the
status-recording skeleton of `api/main.py`) and proves or refutes the spec's
claims about it.  Message contents are modelled as `List Char` (Python `str`);
the filesystem is modelled as an optional directory listing; wall-clock
timestamps are explicit parameters.
-/

/-- The backtick character (avoids a literal in code). -/
def BT : Char := Char.ofNat 96

/-- The dot character. -/
def DOT : Char := Char.ofNat 46

/-- The newline character. -/
def NL : Char := Char.ofNat 10

/-- The reserved completion token, `"PIPELINE_COMPLETE"` in the source. -/
def PIPELINE_COMPLETE : List Char := ("PIPELINE_COMPLETE").data

/-- The sandbox exit marker `"exitcode:"` sniffed by the classifier and router. -/
def EXITCODE_MARKER : List Char := ("exitcode:").data

/-- The opening code-fence delimiter of the extraction regex: "```python\n". -/
def fenceOpen : List Char := ("```python\n").data

/-- The closing code-fence delimiter of the extraction regex: "\n```". -/
def fenceClose : List Char := ("\n```").data

/-- A bare code-fence delimiter: three backticks. -/
def tripleBack : List Char := ("```").data

/-- Python `str.lower()` restricted to the ASCII case mapping used here. -/
def toLowerL (s : List Char) : List Char := s.map Char.toLower

/-- Split `s` at the FIRST occurrence of the pattern `pat`: returns
`some (pre, post)` with `s = pre ++ pat ++ post` and no occurrence of `pat`
starting inside `pre`, or `none` when `pat` does not occur.  This models the
left-to-right scanning of Python's `re` engine for a literal pattern. -/
def splitOnSub (pat : List Char) : List Char → Option (List Char × List Char)
  | [] => if pat.isPrefixOf [] then some ([], []) else none
  | c :: rest =>
    if pat.isPrefixOf (c :: rest) then some ([], (c :: rest).drop pat.length)
    else (splitOnSub pat rest).map (fun pr => (c :: pr.1, pr.2))

/-- Python's `pat in s` substring test. -/
def containsL (pat s : List Char) : Bool := (splitOnSub pat s).isSome

/-- Fuel-driven worker for `_extract_code_blocks`: repeatedly find
`"```python\n" (.*?) "\n```"` (non-greedy, DOTALL), exactly the non-overlapping
left-to-right matches of `re.findall(r"```python\n(.*?)\n```", content, re.DOTALL)`. -/
def extractAux : Nat → List Char → List (List Char)
  | 0, _ => []
  | fuel + 1, s =>
    match splitOnSub fenceOpen s with
    | none => []
    | some (_, rest) =>
      match splitOnSub fenceClose rest with
      | none => []
      | some (frag, rest2) => frag :: extractAux fuel rest2

/-- `_extract_code_blocks` from orchestration.py: extract Python code blocks
from markdown. -/
def _extract_code_blocks (content : List Char) : List (List Char) :=
  extractAux (content.length + 1) content

/-- A structured message dict, as built by `_make_message_dict`. -/
structure MsgDict where
  type : String
  name : String
  sender : String
  receiver : String
  content : List Char
  timestamp : String
  has_code : Bool
  code_blocks : List (List Char)
  deriving DecidableEq

/-- `_make_message_dict` from orchestration.py.  The timestamp
(`datetime.utcnow().isoformat() + "Z"` in the source) is an explicit input
here since it is the only external state the function reads. -/
def _make_message_dict (sender receiver : String) (content : List Char)
    (timestamp : String) : MsgDict :=
  let code_blocks := _extract_code_blocks content
  let has_code := !code_blocks.isEmpty
  -- msg_type starts as "agent_message" and is sequentially overwritten:
  -- has_code, then the completion token, then the exit-code marker.
  let t1 := if has_code then ("code_generation") else ("agent_message")
  let t2 := if containsL PIPELINE_COMPLETE content then ("review_approved") else t1
  let t3 := if containsL EXITCODE_MARKER (toLowerL content) then ("code_execution") else t2
  { type := t3
    name := sender
    sender := sender
    receiver := receiver
    content := content
    timestamp := timestamp
    has_code := has_code
    code_blocks := code_blocks }

/-- A raw GroupChat message: speaker name plus an optional content string
(`msg.get("content")` may be `None` in the source). -/
structure GCMsg where
  name : String
  content : Option (List Char)
  deriving DecidableEq

/-- `is_pipeline_complete` from agents.py: `content = msg.get("content") or ""`,
then test whether the reserved token occurs in it. -/
def is_pipeline_complete (msg : GCMsg) : Bool :=
  containsL PIPELINE_COMPLETE (msg.content.getD [])

/-- The three agents built by `build_agents`, plus a constructor for any other
speaker value the selector might be handed. -/
inductive Agent where
  | executor : Agent
  | engineer : Agent
  | reviewer : Agent
  | other : String → Agent
  deriving DecidableEq

/-- The display name of an agent, as set in `build_agents`. -/
def Agent.agentName : Agent → String
  | .executor => ("Executor")
  | .engineer => ("Engineer")
  | .reviewer => ("Reviewer")
  | .other s => s

/-- `select_next_speaker` from run_workflow: deterministic routing with review
loop. -/
def select_next_speaker (last_speaker : Agent) (messages : List GCMsg) : Agent :=
  match messages with
  | [] => .engineer
  | _ :: _ =>
    let last_content := toLowerL (((messages.getLast?).getD ⟨("" : String), none⟩).content.getD [])
    match last_speaker with
    | .executor =>
      -- First message is the task prompt → send to Engineer
      if messages.length ≤ 1 then .engineer
      -- Code was executed (output contains "exitcode:") → Reviewer evaluates
      else if containsL EXITCODE_MARKER last_content then .reviewer
      -- No code executed (e.g. Engineer sent text only) → Reviewer evaluates
      else .reviewer
    | .engineer => .executor
    | .reviewer => .engineer
    | .other _ => .engineer

/-- One entry of a directory listing: base name and whether it is a regular
file (as opposed to a subdirectory). -/
structure FileEntry where
  name : String
  is_file : Bool
  deriving DecidableEq

/-- A discovered artifact: path, base name, and extension-derived type. -/
structure Artifact where
  path : String
  name : String
  type : String
  deriving DecidableEq

/-- The fixed extension→type table of `discover_artifacts`. -/
def EXTENSIONS : List (String × String) :=
  [((".png"), ("image")),
   ((".jpg"), ("image")),
   ((".jpeg"), ("image")),
   ((".md"), ("markdown")),
   ((".json"), ("json")),
   ((".py"), ("code")),
   ((".txt"), ("text")),
   ((".csv"), ("data")),
   ((".html"), ("html"))]

/-- The extension of a base name: the suffix starting at the last dot, or `[]`
when there is no dot.  This is `os.path.splitext(...)[1]` for the names
`glob.glob(dir + "/*")` can yield (those never begin with a dot, where the
stdlib special-cases leading dots). -/
def extOf : List Char → List Char
  | [] => []
  | c :: rest =>
    let e := extOf rest
    if e.isEmpty then (if c = DOT then c :: rest else []) else e

/-- The artifact type derived from a file name via the extension table;
unknown extensions map to "file". -/
def fileTypeOf (name : String) : String :=
  ((EXTENSIONS).lookup ⟨toLowerL (extOf name.data)⟩).getD ("file")

/-- Whether a base name begins with a dot (a hidden file). -/
def startsWithDot (n : String) : Bool :=
  match n.data with
  | c :: _ => c = DOT
  | [] => false

/-- `glob.glob(os.path.join(work_dir, "*"))` on a directory listing:
yields every entry whose name does not begin with a dot (glob's `*` does not
match hidden files); a nonexistent directory (`none`) yields nothing. -/
def globStar (dir : Option (List FileEntry)) : List FileEntry :=
  (dir.getD []).filter (fun e => !startsWithDot e.name)

/-- `discover_artifacts` from orchestration.py: glob the working directory,
keep regular files, tag each with its extension type. -/
def discover_artifacts (work_dir : String) (dir : Option (List FileEntry)) :
    List Artifact :=
  ((globStar dir).filter (fun e => e.is_file)).map (fun e =>
    { path := work_dir ++ ("/") ++ e.name
      name := e.name
      type := fileTypeOf e.name })

/-- State of the streaming relay: the per-run de-duplication key set and the
events pushed to the `on_message` sink so far, in order. -/
structure RelayState where
  streamed_keys : List (List Char)
  delivered : List MsgDict
  deriving DecidableEq

/-- The de-duplication key `f"{name}:{content[:80]}"`. -/
def streamKey (name : String) (content : List Char) : List Char :=
  name.data ++ (":" : String).get 0 :: content.take 80

/-- `_streaming_process` from run_workflow, restricted to its observable
effect on the relay state (the call to the original `_process_received_message`
only appends to the GroupChat transcript and is modelled elsewhere): skip
empty content, drop repeated keys, otherwise record the key and push the
structured message dict to the sink. -/
def _streaming_process (st : RelayState) (name : String) (content : List Char)
    (timestamp : String) : RelayState :=
  if content.isEmpty then st
  else
    let key := streamKey name content
    if key ∈ st.streamed_keys then st
    else
      { streamed_keys := key :: st.streamed_keys
        delivered := st.delivered ++ [_make_message_dict name ("GroupChat") content timestamp] }

/-- Feed a sequence of (speaker, content) turns through the relay of one run,
starting from the fresh per-run state. -/
def relayRun (timestamp : String) (turns : List (String × List Char)) : RelayState :=
  turns.foldl (fun st t => _streaming_process st t.1 t.2 timestamp) ⟨[], []⟩

/-- `max_round=12` passed to `autogen.GroupChat` in run_workflow. -/
def MAX_ROUND : Nat := 12

/-- Why the round loop stopped. -/
inductive TermReason where
  | completed : TermReason
  | roundCap : TermReason
  deriving DecidableEq

/-- Modelled from the spec: the GroupChat round loop (`autogen.GroupChat` /
`GroupChatManager.run_chat`, a library external to this repository).  Per
§4.4 of the spec, each round selects the next speaker with the repository's
`select_next_speaker`, obtains that role's reply from an abstract
completion/execution oracle, appends it to the transcript, and stops either
on a termination message (`is_pipeline_complete`, checked by the manager) or
when the round cap is exhausted. -/
def runChatLoop (reply : Agent → List GCMsg → List Char) :
    Nat → Agent → List GCMsg → List GCMsg × TermReason
  | 0, _, msgs => (msgs, .roundCap)
  | fuel + 1, last, msgs =>
    let nxt := select_next_speaker last msgs
    let m : GCMsg := ⟨nxt.agentName, some (reply nxt msgs)⟩
    if is_pipeline_complete m then (msgs ++ [m], .completed)
    else runChatLoop reply fuel nxt (msgs ++ [m])

/-- Modelled from the spec: `executor.initiate_chat(manager, message=task)`.
The seed task turn is produced by the Executor; the remaining rounds are
bounded so that the transcript never exceeds `MAX_ROUND` total turns. -/
def run_chat (reply : Agent → List GCMsg → List Char) (task : List Char) :
    List GCMsg × TermReason :=
  runChatLoop reply (MAX_ROUND - 1) .executor [⟨("Executor"), some task⟩]

/-- The dict returned by `run_workflow`.  `result` is `none` exactly when the
underlying chat call raised (the source initialises `result = None` and only
assigns it on success); there is no status field. -/
structure WorkflowReturn where
  result : Option Unit
  work_dir : String
  artifacts : List Artifact
  messages : List MsgDict
  warned : Bool
  deriving DecidableEq

/-- `run_workflow` from orchestration.py, after the chat has run: the chat
outcome (normal or raised) and the GroupChat transcript are inputs, since the
LLM calls are external.  On an exception the error is logged and a warning
phase event is pushed when a sink is registered (`warned`); either way the
transcript is post-processed through `_make_message_dict` and the artifact
scanner runs over the working directory. -/
def run_workflow (chatOutcome : Except String Unit) (gcMessages : List GCMsg)
    (work_dir : String) (dir : Option (List FileEntry)) (timestamp : String)
    (hasSink : Bool) : WorkflowReturn :=
  let final_messages := gcMessages.filterMap (fun m =>
    match m.content with
    | some c => if c.isEmpty then none
                else some (_make_message_dict m.name ("GroupChat") c timestamp)
    | none => none)
  { result := match chatOutcome with | .ok _ => some () | .error _ => none
    work_dir := work_dir
    artifacts := discover_artifacts work_dir dir
    messages := final_messages
    warned := hasSink && (match chatOutcome with | .ok _ => false | .error _ => true) }

/-- The keys present in the dict `run_workflow` returns. -/
def returnedKeys : List String :=
  [("result"), ("work_dir"), ("artifacts"), ("messages")]

/-- Membership test for a key in `run_workflow`'s returned dict. -/
def dictHasKey (_r : WorkflowReturn) (k : String) : Bool :=
  returnedKeys.contains k

/-- The final status `_run_sync` (api/main.py) records for a run.  After
`run_workflow` returns, `_run_sync` builds the run record from
`result["artifact_report"]` and `result["artifact_plot"]`; a missing key
raises `KeyError`, which the surrounding `except Exception` turns into the
status "failed". -/
def _run_sync_status (chatOutcome : Except String Unit) (gcMessages : List GCMsg)
    (work_dir : String) (dir : Option (List FileEntry)) (timestamp : String)
    (hasSink : Bool) : String :=
  let r := run_workflow chatOutcome gcMessages work_dir dir timestamp hasSink
  if dictHasKey r ("artifact_report") then ("completed") else ("failed")

/-! ### Substring-search toolkit -/

/-- Bridge between the boolean `isPrefixOf` used by `splitOnSub` and the
`<+:` relation. -/
theorem prefixOf_iff {a b : List Char} : a.isPrefixOf b = true ↔ a <+: b :=
  List.isPrefixOf_iff_prefix

/-- If the pattern is a prefix of `s`, the split succeeds at position 0. -/
theorem split_of_pre {pat s : List Char} (h : pat.isPrefixOf s = true) :
    splitOnSub pat s = some ([], s.drop pat.length) := by
  cases s with
  | nil =>
    simp only [splitOnSub, h, if_true, List.drop_nil]
  | cons c rest =>
    simp only [splitOnSub, h, if_true]

/-- Splitting `pat ++ Y` finds the pattern at the front. -/
theorem split_self (pat Y : List Char) :
    splitOnSub pat (pat ++ Y) = some ([], Y) := by
  rw [split_of_pre (prefixOf_iff.mpr (List.prefix_append pat Y))]
  rw [List.drop_left]

/-- A split on a cons whose head position does not match recurses on the tail. -/
theorem split_cons_of_not_pre {pat s : List Char} {c : Char}
    (h : ¬ pat <+: (c :: s)) :
    splitOnSub pat (c :: s) = (splitOnSub pat s).map (fun pr => (c :: pr.1, pr.2)) := by
  simp only [splitOnSub]
  rw [if_neg (fun hb => h (prefixOf_iff.mp hb))]

/-- No-match propagation through a non-matching head character. -/
theorem split_none_cons {pat s : List Char} {c : Char}
    (h : ¬ pat <+: (c :: s)) (hs : splitOnSub pat s = none) :
    splitOnSub pat (c :: s) = none := by
  rw [split_cons_of_not_pre h, hs]
  rfl

/-- Match propagation through a non-matching head character. -/
theorem split_some_cons {pat s pre post : List Char} {c : Char}
    (h : ¬ pat <+: (c :: s)) (hs : splitOnSub pat s = some (pre, post)) :
    splitOnSub pat (c :: s) = some (c :: pre, post) := by
  rw [split_cons_of_not_pre h, hs]
  rfl

/-- A pattern longer than the string never occurs. -/
theorem split_none_short {pat s : List Char} (h : s.length < pat.length) :
    splitOnSub pat s = none := by
  induction s with
  | nil =>
    simp only [splitOnSub]
    rw [if_neg]
    intro hb
    have := (prefixOf_iff.mp hb).length_le
    omega
  | cons c rest ih =>
    simp only [List.length_cons] at h
    refine split_none_cons (fun hp => ?_) (ih (by omega))
    have hle := hp.length_le
    simp only [List.length_cons] at hle
    omega

/-- A failed split means the pattern occurs at no position. -/
theorem no_pre_of_split_none {pat s : List Char} (hs : splitOnSub pat s = none) :
    ∀ i, ¬ pat <+: s.drop i := by
  induction s with
  | nil =>
    intro i hp
    rw [List.drop_nil] at hp
    rcases List.prefix_nil.mp hp with rfl
    simp [splitOnSub] at hs
  | cons c rest ih =>
    have h0 : ¬ pat <+: (c :: rest) := by
      intro hp
      rw [split_of_pre (prefixOf_iff.mpr hp)] at hs
      exact Option.noConfusion hs
    have h1 : splitOnSub pat rest = none := by
      rw [split_cons_of_not_pre h0] at hs
      exact Option.map_eq_none.mp hs
    intro i
    cases i with
    | zero => exact h0
    | succ j => exact ih h1 j

/-- If the pattern occurs at no position, the split fails. -/
theorem split_none_of_no_pre {pat s : List Char} (h : ∀ i, ¬ pat <+: s.drop i) :
    splitOnSub pat s = none := by
  induction s with
  | nil =>
    simp only [splitOnSub]
    rw [if_neg]
    intro hb
    exact h 0 (prefixOf_iff.mp hb)
  | cons c rest ih =>
    exact split_none_cons (h 0) (ih (fun i => h (i + 1)))

/-- No-match propagation through a whole segment none of whose characters can
start the pattern. -/
theorem split_none_benign {pat p s : List Char} {hc : Char} {pt : List Char}
    (hpat : pat = hc :: pt) (hall : ∀ c ∈ p, c ≠ hc)
    (hs : splitOnSub pat s = none) : splitOnSub pat (p ++ s) = none := by
  induction p with
  | nil => simpa using hs
  | cons c p' ih =>
    have hne : ¬ pat <+: (c :: (p' ++ s)) := by
      rw [hpat]
      intro hp
      exact hall c (List.mem_cons_self c p') ((List.cons_prefix_cons.mp hp).1.symm)
    exact split_none_cons hne (ih (fun d hd => hall d (List.mem_cons_of_mem c hd)))

/-- Match propagation through a segment at none of whose positions the pattern
occurs. -/
theorem split_pre_append {pat p s pre post : List Char}
    (h : ∀ i, i < p.length → ¬ pat <+: (p.drop i ++ s))
    (hs : splitOnSub pat s = some (pre, post)) :
    splitOnSub pat (p ++ s) = some (p ++ pre, post) := by
  induction p with
  | nil => simpa using hs
  | cons c p' ih =>
    have h0 : ¬ pat <+: (c :: (p' ++ s)) := by
      have := h 0 (by simp)
      simpa using this
    have ih' := ih (fun i hi => h (i + 1) (by simp; omega))
    exact split_some_cons h0 ih'

/-- A prefix of an append that fits inside the left part is a prefix of it. -/
theorem pre_of_append_le {a b c : List Char} (h : a <+: b ++ c)
    (hl : a.length ≤ b.length) : a <+: b :=
  List.prefix_of_prefix_length_le h (List.prefix_append b c) hl

/-- Dropping the left part of an append out of a long-enough prefix leaves a
prefix of the right part. -/
theorem drop_pre_of_append {pat d Y : List Char} (h : pat <+: d ++ Y)
    (hl : d.length ≤ pat.length) : pat.drop d.length <+: Y := by
  rcases h with ⟨t, ht⟩
  have hY : Y = pat.drop d.length ++ t.drop (d.length - pat.length) := by
    have h2 := congrArg (List.drop d.length) ht
    rw [List.drop_left, List.drop_append_eq_append_drop] at h2
    exact h2.symm
  rw [Nat.sub_eq_zero_of_le hl, List.drop_zero] at hY
  exact ⟨t, hY.symm⟩

/-- Prefixes are preserved by dropping the same count on both sides. -/
theorem pre_drop {a b : List Char} (n : Nat) (h : a <+: b) :
    a.drop n <+: b.drop n := by
  rcases h with ⟨t, rfl⟩
  rw [List.drop_append_eq_append_drop]
  exact ⟨t.drop (n - a.length), rfl⟩

/-- Both fence delimiters have no nontrivial self-overlap. -/
theorem fo_no_self_overlap :
    ∀ k, k < fenceOpen.length → 0 < k → ¬ (fenceOpen.drop k <+: fenceOpen) := by
  decide

/-- The closing delimiter has no nontrivial self-overlap either. -/
theorem fc_no_self_overlap :
    ∀ k, k < fenceClose.length → 0 < k → ¬ (fenceClose.drop k <+: fenceClose) := by
  decide

/-- The bare delimiter occurs in the opening delimiter (at offset 0). -/
theorem tb_pre_fo : tripleBack <+: fenceOpen.drop 0 := by decide

/-- The bare delimiter occurs in the closing delimiter at offset 1. -/
theorem tb_pre_fc : tripleBack <+: fenceClose.drop 1 := by decide

/-- The central occurrence lemma: if the segment `p` contains no bare
code-fence delimiter, then the pattern `pat` (either fence delimiter, which
contains a bare delimiter and has no self-overlap) cannot occur at any
position strictly inside `p` when `p` is followed by `pat ++ X`. -/
theorem no_occ_mid {pat p X : List Char} {off : Nat}
    (hp : splitOnSub tripleBack p = none)
    (htb : tripleBack <+: pat.drop off)
    (hov : ∀ k, k < pat.length → 0 < k → ¬ (pat.drop k <+: pat)) :
    ∀ i, i < p.length → ¬ pat <+: (p.drop i ++ (pat ++ X)) := by
  intro i hi h
  have hd : 0 < (p.drop i).length := by
    rw [List.length_drop]
    omega
  by_cases hc : pat.length ≤ (p.drop i).length
  · have h1 : pat <+: p.drop i := pre_of_append_le h hc
    have h2 : pat.drop off <+: (p.drop i).drop off := pre_drop off h1
    have h3 : tripleBack <+: (p.drop i).drop off := htb.trans h2
    rw [List.drop_drop] at h3
    exact no_pre_of_split_none hp (i + off) h3
  · push_neg at hc
    have h5 : pat.drop (p.drop i).length <+: pat ++ X :=
      drop_pre_of_append h (Nat.le_of_lt hc)
    have h6 : pat.drop (p.drop i).length <+: pat := by
      refine pre_of_append_le h5 ?_
      rw [List.length_drop]
      omega
    exact hov (p.drop i).length hc hd h6

/-- A segment without a bare delimiter contains neither fence delimiter. -/
theorem none_fo_of_none_tb {p : List Char}
    (hp : splitOnSub tripleBack p = none) : splitOnSub fenceOpen p = none := by
  refine split_none_of_no_pre (fun i hpre => ?_)
  have : tripleBack <+: p.drop i := by
    refine List.IsPrefix.trans ?_ hpre
    decide
  exact no_pre_of_split_none hp i this

/-- A successful split consumes at least the pattern out of the string. -/
theorem split_some_length {pat s pre post : List Char}
    (h : splitOnSub pat s = some (pre, post)) :
    post.length + pat.length ≤ s.length := by
  induction s generalizing pre with
  | nil =>
    simp only [splitOnSub] at h
    by_cases hb : pat.isPrefixOf ([] : List Char) = true
    · rw [if_pos hb] at h
      have := (prefixOf_iff.mp hb).length_le
      cases h
      simp only [List.length_nil] at this ⊢
      omega
    · rw [if_neg hb] at h
      exact Option.noConfusion h
  | cons c rest ih =>
    by_cases hb : pat.isPrefixOf (c :: rest) = true
    · rw [split_of_pre hb] at h
      cases h
      have := (prefixOf_iff.mp hb).length_le
      rw [List.length_drop]
      omega
    · rw [split_cons_of_not_pre (fun hq => hb (prefixOf_iff.mpr hq))] at h
      cases hrec : splitOnSub pat rest with
      | none => rw [hrec] at h; exact Option.noConfusion h
      | some pr =>
        rw [hrec] at h
        cases h
        have := ih (show splitOnSub pat rest = some (pr.1, pr.2) by rw [hrec])
        simp only [List.length_cons]
        omega

/-- `extractAux` does not depend on the fuel once it exceeds the string
length. -/
theorem extractAux_congr :
    ∀ n m (s : List Char), s.length < n → s.length < m →
      extractAux n s = extractAux m s := by
  intro n
  induction n with
  | zero => intro m s h; omega
  | succ n' ih =>
    intro m s hn hm
    cases m with
    | zero => omega
    | succ m' =>
      cases h1 : splitOnSub fenceOpen s with
      | none => simp only [extractAux, h1]
      | some pr1 =>
        obtain ⟨pre1, rest1⟩ := pr1
        cases h2 : splitOnSub fenceClose rest1 with
        | none => simp only [extractAux, h1, h2]
        | some pr2 =>
          obtain ⟨frag, rest2⟩ := pr2
          have l1 := split_some_length h1
          have l2 := split_some_length h2
          have hlen : fenceOpen.length = 10 := by decide
          have hlen2 : fenceClose.length = 4 := by decide
          rw [hlen] at l1
          rw [hlen2] at l2
          simp only [extractAux, h1, h2]
          rw [ih m' rest2 (by omega) (by omega)]

/-- Unfolding `_extract_code_blocks` one successful match at a time. -/
theorem extract_step {s pre rest frag rest2 : List Char}
    (h1 : splitOnSub fenceOpen s = some (pre, rest))
    (h2 : splitOnSub fenceClose rest = some (frag, rest2)) :
    _extract_code_blocks s = frag :: _extract_code_blocks rest2 := by
  have l1 := split_some_length h1
  have l2 := split_some_length h2
  have hlen : fenceOpen.length = 10 := by decide
  have hlen2 : fenceClose.length = 4 := by decide
  rw [hlen] at l1
  rw [hlen2] at l2
  show extractAux (s.length + 1) s = frag :: extractAux (rest2.length + 1) rest2
  have L : extractAux (s.length + 1) s = frag :: extractAux s.length rest2 := by
    simp only [extractAux, h1, h2]
  rw [L, extractAux_congr s.length (rest2.length + 1) rest2 (by omega) (by omega)]

/-- When the opening delimiter never occurs, extraction yields nothing. -/
theorem extract_none {s : List Char}
    (h : splitOnSub fenceOpen s = none) : _extract_code_blocks s = [] := by
  show extractAux (s.length + 1) s = []
  simp only [extractAux, h]

/-- Absence of a bare code-fence delimiter (three backticks) in a string of
text. -/
def noTriple (s : List Char) : Prop := splitOnSub tripleBack s = none

instance noTriple.instDecidable (s : List Char) : Decidable (noTriple s) :=
  inferInstanceAs (Decidable (splitOnSub tripleBack s = none))

/-- Build a text from `N + 1` prose segments interleaved with `N` well-formed
python-fenced code fragments:
`p0 ++ "```python\n" ++ f1 ++ "\n```" ++ p1 ++ ... ++ fN ++ "\n```" ++ pN`. -/
def assemble : List (List Char) → List (List Char) → List Char
  | p :: ps, f :: fs => p ++ (fenceOpen ++ (f ++ (fenceClose ++ assemble ps fs)))
  | p :: _, [] => p
  | [], _ => []

/-- The decomposition of the opening delimiter into leading backticks. -/
theorem fo_decomp : fenceOpen = BT :: BT :: BT :: (("python").data ++ [NL]) := by
  decide

/-- The decomposition of the closing delimiter. -/
theorem fc_decomp : fenceClose = NL :: tripleBack := by decide

/-- The bare delimiter written out. -/
theorem tb_decomp : tripleBack = BT :: BT :: BT :: [] := by decide

/-- Splitting off the first fenced fragment of an assembled text. -/
theorem split_assemble_open {p f rest : List Char}
    (hp : noTriple p) :
    splitOnSub fenceOpen (p ++ (fenceOpen ++ (f ++ (fenceClose ++ rest)))) =
      some (p, f ++ (fenceClose ++ rest)) := by
  have h := split_pre_append
    (no_occ_mid hp tb_pre_fo fo_no_self_overlap)
    (split_self fenceOpen (f ++ (fenceClose ++ rest)))
  rwa [List.append_nil] at h

/-- Splitting off the closing delimiter after a fragment free of bare
delimiters. -/
theorem split_assemble_close {f rest : List Char}
    (hf : noTriple f) :
    splitOnSub fenceClose (f ++ (fenceClose ++ rest)) = some (f, rest) := by
  have h := split_pre_append
    (no_occ_mid hf tb_pre_fc fc_no_self_overlap)
    (split_self fenceClose rest)
  rwa [List.append_nil] at h

/-- A single fenced block with language tag `tag` and inner text `body`:
three backticks, the tag, a newline, the body, then the closing fence. -/
def fencedBlock (tag body : List Char) : List Char :=
  tripleBack ++ tag ++ NL :: body ++ fenceClose

/-- If `p ++ "\n"` is a prefix of `a ++ "\n" ++ X` and neither `a` nor `p`
contains a newline, then `a` and `p` are the same word. -/
theorem token_eq : ∀ (p a X : List Char), NL ∉ a → NL ∉ p →
    (p ++ [NL]) <+: (a ++ NL :: X) → a = p := by
  intro p
  induction p with
  | nil =>
    intro a X ha _ h
    cases a with
    | nil => rfl
    | cons c a' =>
      simp only [List.nil_append, List.cons_append] at h
      have := (List.cons_prefix_cons.mp h).1
      exact absurd (this ▸ List.mem_cons_self c a') ha
  | cons q p' ih =>
    intro a X ha hp h
    cases a with
    | nil =>
      simp only [List.cons_append, List.nil_append] at h
      have := (List.cons_prefix_cons.mp h).1
      exact absurd (this ▸ List.mem_cons_self q p') hp
    | cons c a' =>
      simp only [List.cons_append] at h
      obtain ⟨hqc, h'⟩ := List.cons_prefix_cons.mp h
      have := ih a' X (fun hm => ha (List.mem_cons_of_mem c hm))
        (fun hm => hp (List.mem_cons_of_mem q hm)) h'
      rw [hqc, this]

/-- A backtick-headed pattern is never a prefix of a backtick-free word
followed by a newline. -/
theorem bt_head_not_pre (Z tag X : List Char) (htag : BT ∉ tag) :
    ¬ (BT :: Z) <+: (tag ++ NL :: X) := by
  cases tag with
  | nil =>
    intro h
    simp only [List.nil_append] at h
    have := (List.cons_prefix_cons.mp h).1
    exact absurd this (by decide)
  | cons c t' =>
    intro h
    simp only [List.cons_append] at h
    have := (List.cons_prefix_cons.mp h).1
    exact htag (this ▸ List.mem_cons_self c t')

/-- The opening delimiter `"```python\n"` never occurs in a fenced block whose
tag is not `python` (and whose tag and body are fence-free). -/
theorem fencedBlock_no_fo (tag body : List Char)
    (h1 : tag ≠ ("python").data) (h2 : NL ∉ tag) (h3 : BT ∉ tag)
    (h4 : BT ∉ body) :
    splitOnSub fenceOpen (fencedBlock tag body) = none := by
  have hBTNL : ¬ (BT = NL) := by decide
  have e4 : splitOnSub fenceOpen tripleBack = none := split_none_short (by decide)
  have e3 : splitOnSub fenceOpen fenceClose = none := by
    rw [fc_decomp]
    refine split_none_cons (fun hpre => ?_) e4
    rw [fo_decomp] at hpre
    exact hBTNL (List.cons_prefix_cons.mp hpre).1
  have e2 : splitOnSub fenceOpen (body ++ fenceClose) = none :=
    split_none_benign fo_decomp (fun c hc heq => h4 (heq ▸ hc)) e3
  have e1 : splitOnSub fenceOpen (NL :: (body ++ fenceClose)) = none := by
    refine split_none_cons (fun hpre => ?_) e2
    rw [fo_decomp] at hpre
    exact hBTNL (List.cons_prefix_cons.mp hpre).1
  have e0 : splitOnSub fenceOpen (tag ++ NL :: (body ++ fenceClose)) = none :=
    split_none_benign fo_decomp (fun c hc heq => h3 (heq ▸ hc)) e1
  have nA : ¬ fenceOpen <+: (BT :: (tag ++ NL :: (body ++ fenceClose))) := by
    rw [fo_decomp]
    intro hpre
    exact bt_head_not_pre _ tag _ h3 (List.cons_prefix_cons.mp hpre).2
  have eA := split_none_cons nA e0
  have nB : ¬ fenceOpen <+: (BT :: BT :: (tag ++ NL :: (body ++ fenceClose))) := by
    rw [fo_decomp]
    intro hpre
    exact bt_head_not_pre _ tag _ h3 (List.cons_prefix_cons.mp (List.cons_prefix_cons.mp hpre).2).2
  have eB := split_none_cons nB eA
  have nC : ¬ fenceOpen <+: (BT :: BT :: BT :: (tag ++ NL :: (body ++ fenceClose))) := by
    rw [fo_decomp]
    intro hpre
    have h' := (List.cons_prefix_cons.mp
      (List.cons_prefix_cons.mp (List.cons_prefix_cons.mp hpre).2).2).2
    exact h1 (token_eq (("python").data) tag _ h2 (by decide) h')
  have eC := split_none_cons nC eB
  have hfb : fencedBlock tag body = BT :: BT :: BT :: (tag ++ NL :: (body ++ fenceClose)) := by
    simp only [fencedBlock, tb_decomp, List.cons_append, List.nil_append,
      List.append_assoc]
  rw [hfb]
  exact eC

/-! ### Claims -/

/-- C1, counterexample: the text "```python\nPIPELINE_COMPLETE\n```" contains
the reserved completion token AND a code-fence delimiter, yet the classifier
classifies it as completion (`review_approved`) and the termination check
treats it as a termination message — refuting the claim that such a text is
never classified as completion. -/
theorem C1_counterexample :
    containsL tripleBack (("```python\nPIPELINE_COMPLETE\n```").data) = true ∧
    containsL PIPELINE_COMPLETE (("```python\nPIPELINE_COMPLETE\n```").data) = true ∧
    (_make_message_dict ("Reviewer") ("GroupChat")
      (("```python\nPIPELINE_COMPLETE\n```").data) ("T")).type = ("review_approved") ∧
    is_pipeline_complete ⟨("Reviewer"), some (("```python\nPIPELINE_COMPLETE\n```").data)⟩ = true := by
  decide

/-- C1, amended: the classifier applies no code-fence guard at all — any text
containing the reserved completion token is classified `review_approved`
(provided no exit-code marker, which takes precedence, is present), and the
termination check treats any message whose content contains the token as a
termination message, code fences notwithstanding. -/
theorem C1_token_classification (s r ts n : String) (c : List Char)
    (h1 : containsL PIPELINE_COMPLETE c = true)
    (h2 : containsL EXITCODE_MARKER (toLowerL c) = false) :
    (_make_message_dict s r c ts).type = ("review_approved") ∧
    is_pipeline_complete ⟨n, some c⟩ = true := by
  constructor
  · simp [_make_message_dict, h1, h2]
  · simpa [is_pipeline_complete] using h1

/-- C1, witness for the amended theorem at a concrete fenced-free input. -/
theorem C1_witness :
    (_make_message_dict ("R") ("G") (("done. PIPELINE_COMPLETE").data) ("T")).type
      = ("review_approved") ∧
    is_pipeline_complete ⟨("R"), some (("done. PIPELINE_COMPLETE").data)⟩ = true :=
  C1_token_classification ("R") ("G") ("T") ("R") (("done. PIPELINE_COMPLETE").data)
    (by decide) (by decide)

/-- C2, counterexample: a provider error with an artifact already in the
working directory.  `run_workflow` returns the artifact, but the status
recorded for the run is "failed", not completed-with-warning: no artifact-based
reclassification exists anywhere in the code. -/
theorem C2_counterexample :
    (run_workflow (.error ("ProviderError")) [] ("w")
      (some [⟨("report.md"), true⟩]) ("T") true).artifacts ≠ [] ∧
    _run_sync_status (.error ("ProviderError")) [] ("w")
      (some [⟨("report.md"), true⟩]) ("T") true = ("failed") := by
  decide

/-- C2, amended: when the chat call raises, `run_workflow` swallows the
exception (returning normally with `result = None`) and still invokes the
artifact scanner on the working directory; but it assigns no status at all,
and the recorded final status is "failed" regardless of whether artifacts
exist — indeed regardless of the chat outcome, since the API layer reads
result keys `run_workflow` does not return. -/
theorem C2_error_handling (e : String) (gcm : List GCMsg) (wd : String)
    (dir : Option (List FileEntry)) (ts : String) (sink : Bool) :
    (run_workflow (.error e) gcm wd dir ts sink).result = none ∧
    (run_workflow (.error e) gcm wd dir ts sink).artifacts = discover_artifacts wd dir ∧
    _run_sync_status (.error e) gcm wd dir ts sink = ("failed") ∧
    _run_sync_status (.ok ()) gcm wd dir ts sink = ("failed") :=
  ⟨rfl, rfl, rfl, rfl⟩

/-- C3, counterexample: when the Executor is the last speaker and the
transcript holds only the seed task (length 1 ≤ 1), the router selects the
Engineer, not the Reviewer — refuting "whenever the last speaker is the
Executor, the next selected role is the Reviewer". -/
theorem C3_counterexample :
    select_next_speaker Agent.executor [⟨("Executor"), some (("task").data)⟩]
      ≠ Agent.reviewer := by
  decide

/-- C3, amended: from the Executor the router sends the very first reply
(transcript length ≤ 1) to the Engineer; from transcript length 2 on, every
Executor turn routes to the Reviewer regardless of content (the
execution-output test and its fallback both select the Reviewer). -/
theorem C3_executor_routing (messages : List GCMsg) :
    (messages.length ≤ 1 →
      select_next_speaker Agent.executor messages = Agent.engineer) ∧
    (2 ≤ messages.length →
      select_next_speaker Agent.executor messages = Agent.reviewer) := by
  cases messages with
  | nil =>
    exact ⟨fun _ => rfl, fun h => by simp at h⟩
  | cons m rest =>
    cases rest with
    | nil =>
      refine ⟨fun _ => ?_, fun h => by simp at h⟩
      simp [select_next_speaker]
    | cons m2 rest2 =>
      refine ⟨fun h => by simp at h, fun _ => ?_⟩
      simp only [select_next_speaker]
      rw [if_neg (by simp)]
      exact ite_self _

/-- C3, witness: the amended routing at concrete transcripts of length 1
and 2. -/
theorem C3_witness :
    select_next_speaker Agent.executor [⟨("Executor"), some (("t").data)⟩]
      = Agent.engineer ∧
    select_next_speaker Agent.executor
      [⟨("Executor"), some (("t").data)⟩,
       ⟨("Executor"), some (("exitcode: 0").data)⟩] = Agent.reviewer :=
  ⟨(C3_executor_routing _).1 (by decide), (C3_executor_routing _).2 (by decide)⟩

/-- The round loop exhausts its fuel and reports the round cap whenever no
reply ever contains the completion token. -/
theorem runChatLoop_cap (reply : Agent → List GCMsg → List Char)
    (h : ∀ a ms, containsL PIPELINE_COMPLETE (reply a ms) = false) :
    ∀ fuel last msgs,
      (runChatLoop reply fuel last msgs).1.length = msgs.length + fuel ∧
      (runChatLoop reply fuel last msgs).2 = TermReason.roundCap := by
  intro fuel
  induction fuel with
  | zero => intro last msgs; exact ⟨by simp [runChatLoop], rfl⟩
  | succ f ih =>
    intro last msgs
    have hterm : is_pipeline_complete
        ⟨(select_next_speaker last msgs).agentName,
         some (reply (select_next_speaker last msgs) msgs)⟩ = false := by
      simp [is_pipeline_complete, h]
    obtain ⟨ih1, ih2⟩ := ih (select_next_speaker last msgs)
      (msgs ++ [⟨(select_next_speaker last msgs).agentName,
                some (reply (select_next_speaker last msgs) msgs)⟩])
    constructor
    · simp only [runChatLoop, hterm, Bool.false_eq_true, if_false]
      rw [ih1]
      simp
      omega
    · simp only [runChatLoop, hterm, Bool.false_eq_true, if_false]
      exact ih2

/-- C4: when no turn is ever classified completion, the three-role round loop
terminates after exactly the configured cap of 12 total turns, the stop
reason is the round cap (not an error), and `run_workflow` still returns
normally with the transcript and the artifacts discovered in the working
directory. -/
theorem C4_round_cap (reply : Agent → List GCMsg → List Char) (task : List Char)
    (wd : String) (dir : Option (List FileEntry)) (ts : String) (sink : Bool)
    (h : ∀ a ms, containsL PIPELINE_COMPLETE (reply a ms) = false) :
    (run_chat reply task).1.length = MAX_ROUND ∧
    (run_chat reply task).2 = TermReason.roundCap ∧
    (run_workflow (.ok ()) (run_chat reply task).1 wd dir ts sink).artifacts
      = discover_artifacts wd dir := by
  obtain ⟨h1, h2⟩ := runChatLoop_cap reply h (MAX_ROUND - 1) .executor
    [⟨("Executor"), some task⟩]
  refine ⟨?_, h2, rfl⟩
  rw [show run_chat reply task
        = runChatLoop reply (MAX_ROUND - 1) .executor [⟨("Executor"), some task⟩] from rfl,
      h1]
  rfl

/-- C4, witness: a conversation whose replies never contain the completion
token runs to exactly 12 turns. -/
theorem C4_witness :
    (run_chat (fun _ _ => ("working").data) (("go").data)).1.length = MAX_ROUND ∧
    (run_chat (fun _ _ => ("working").data) (("go").data)).2 = TermReason.roundCap ∧
    (run_workflow (.ok ()) (run_chat (fun _ _ => ("working").data) (("go").data)).1
      ("w") none ("T") false).artifacts = discover_artifacts ("w") none :=
  C4_round_cap _ _ _ _ _ _ (fun _ _ => by decide)

/-- C5, counterexample: a directory containing exactly one regular file whose
name begins with a dot.  The scanner returns nothing, although the claim
demands exactly the regular files directly inside the directory: glob's `*`
skips hidden files. -/
theorem C5_counterexample :
    ([(⟨(".hidden.md"), true⟩ : FileEntry)].filter (fun e => e.is_file)).length = 1 ∧
    discover_artifacts ("w") (some [⟨(".hidden.md"), true⟩]) = [] := by
  decide

/-- C5, amended: the artifact scanner never fails: a nonexistent directory
yields the empty list; an existing directory yields exactly its non-hidden
regular files (non-recursive; glob skips names beginning with a dot); the
three-file example is typed markdown/json/image; an extension outside the
fixed table is typed "file". -/
theorem C5_artifact_scan (wd : String) (fs : List FileEntry) :
    discover_artifacts wd none = [] ∧
    (discover_artifacts wd (some fs)).map Artifact.name =
      (fs.filter (fun e => e.is_file && !startsWithDot e.name)).map FileEntry.name ∧
    (discover_artifacts ("w") (some [⟨("report.md"), true⟩, ⟨("data.json"), true⟩,
      ⟨("chart.png"), true⟩])).map Artifact.type
      = [("markdown"), ("json"), ("image")] ∧
    (∀ nm : String, EXTENSIONS.lookup ⟨toLowerL (extOf nm.data)⟩ = none →
      fileTypeOf nm = ("file")) := by
  refine ⟨rfl, ?_, by decide, fun nm h => ?_⟩
  · simp [discover_artifacts, globStar, List.filter_filter, List.map_map,
      Function.comp]
  · simp [fileTypeOf, h]

/-- C5, witness: the unknown-extension clause at a concrete name. -/
theorem C5_witness : fileTypeOf ("weird.xyz") = ("file") :=
  ((C5_artifact_scan ("w") []).2.2.2) ("weird.xyz") (by decide)

/-- C6, counterexample: two turns with empty content have identical
de-duplication keys, yet zero events are delivered (the relay skips empty
content before deduplicating), refuting "exactly one event is delivered". -/
theorem C6_counterexample :
    streamKey ("Reviewer") [] = streamKey ("Reviewer") [] ∧
    (relayRun ("T") [(("Reviewer"), []), (("Reviewer"), [])]).delivered.length ≠ 1 := by
  decide

/-- C6, amended: within one run, two turns with nonempty content and identical
(role, first-80-chars) keys result in exactly one delivered event; the repeat
is dropped silently (empty-content turns are never delivered at all). -/
theorem C6_dedup (name ts : String) (c1 c2 : List Char)
    (h1 : c1 ≠ []) (h2 : c2 ≠ [])
    (hk : streamKey name c1 = streamKey name c2) :
    (relayRun ts [(name, c1), (name, c2)]).delivered.length = 1 := by
  have e1 : c1.isEmpty = false := by
    cases c1 with
    | nil => exact absurd rfl h1
    | cons _ _ => rfl
  have e2 : c2.isEmpty = false := by
    cases c2 with
    | nil => exact absurd rfl h2
    | cons _ _ => rfl
  simp [relayRun, _streaming_process, e1, e2, h1, h2, ← hk]

/-- C6, witness: the amended de-duplication at a concrete repeated turn. -/
theorem C6_witness :
    (relayRun ("T") [(("Reviewer"), ("abc").data),
      (("Reviewer"), ("abc").data)]).delivered.length = 1 :=
  C6_dedup ("Reviewer") ("T") (("abc").data) (("abc").data)
    (by decide) (by decide) rfl

/-- C7, counterexample: one well-formed fragment "a" (fence-free) surrounded
by prose, where the trailing prose happens to contain a fence of its own.
The extractor returns two fragments, not the one the claim demands for
N = 1 with arbitrary prose. -/
theorem C7_counterexample :
    _extract_code_blocks
      (assemble [[], ("\n```python\nextra\n```").data] [("a").data])
      ≠ [("a").data] := by
  decide

/-- C7, amended: for a text assembled from N python-fenced fragments and
N + 1 interleaved prose segments, where fragments AND prose segments are all
free of the bare code-fence delimiter, the extractor returns exactly the N
fragments, in order, each verbatim. -/
theorem C7_fragment_round_trip : ∀ (fs ps : List (List Char)),
    ps.length = fs.length + 1 → (∀ p ∈ ps, noTriple p) → (∀ f ∈ fs, noTriple f) →
    _extract_code_blocks (assemble ps fs) = fs := by
  intro fs
  induction fs with
  | nil =>
    intro ps hlen hp _
    cases ps with
    | nil => simp at hlen
    | cons p ps' =>
      show _extract_code_blocks p = []
      exact extract_none (none_fo_of_none_tb (hp p (List.mem_cons_self p ps')))
  | cons f fs' ih =>
    intro ps hlen hp hf
    cases ps with
    | nil => simp at hlen
    | cons p ps' =>
      show _extract_code_blocks
        (p ++ (fenceOpen ++ (f ++ (fenceClose ++ assemble ps' fs')))) = f :: fs'
      rw [extract_step (split_assemble_open (hp p (List.mem_cons_self p ps')))
        (split_assemble_close (hf f (List.mem_cons_self f fs')))]
      rw [ih ps' (by simpa using hlen)
        (fun q hq => hp q (List.mem_cons_of_mem p hq))
        (fun q hq => hf q (List.mem_cons_of_mem f hq))]

/-- C7, witness: two fragments with fence-free prose round-trip through the
extractor. -/
theorem C7_witness :
    _extract_code_blocks (assemble
      [("Intro:\n").data, ("\nmid\n").data, ("\nbye").data]
      [("print(1)").data, ("x = 2").data])
      = [("print(1)").data, ("x = 2").data] :=
  C7_fragment_round_trip _ _ (by decide) (by decide) (by decide)

/-- C8: the classification tag, extracted fragment list and has-code flag of
a message dict are a pure function of the content alone — identical across
any two calls, whatever the sender, receiver or timestamp (the only external
state read). -/
theorem C8_classifier_pure (s r ts s' r' ts' : String) (c : List Char) :
    (_make_message_dict s r c ts).type = (_make_message_dict s' r' c ts').type ∧
    (_make_message_dict s r c ts).code_blocks
      = (_make_message_dict s' r' c ts').code_blocks ∧
    (_make_message_dict s r c ts).has_code
      = (_make_message_dict s' r' c ts').has_code :=
  ⟨rfl, rfl, rfl⟩

/-- C9: a fence whose opening delimiter is not exactly "```python" followed by
a newline — no language tag, or any other tag (no backtick or newline in the
tag, fence-free body) — yields zero extracted fragments, and such a message,
when it contains neither the completion token nor an exit-code marker, is
classified plain (`agent_message`). -/
theorem C9_untagged_fence (tag body : List Char) (s r ts : String)
    (h1 : tag ≠ ("python").data) (h2 : NL ∉ tag) (h3 : BT ∉ tag) (h4 : BT ∉ body)
    (h5 : containsL PIPELINE_COMPLETE (fencedBlock tag body) = false)
    (h6 : containsL EXITCODE_MARKER (toLowerL (fencedBlock tag body)) = false) :
    _extract_code_blocks (fencedBlock tag body) = [] ∧
    (_make_message_dict s r (fencedBlock tag body) ts).type = ("agent_message") := by
  have hx : _extract_code_blocks (fencedBlock tag body) = [] :=
    extract_none (fencedBlock_no_fo tag body h1 h2 h3 h4)
  refine ⟨hx, ?_⟩
  simp [_make_message_dict, hx, h5, h6]

/-- C9, witness: a js-tagged fence is not extracted and classifies as plain. -/
theorem C9_witness :
    _extract_code_blocks (fencedBlock (("js").data) (("let x = 1").data)) = [] ∧
    (_make_message_dict ("Engineer") ("GroupChat")
      (fencedBlock (("js").data) (("let x = 1").data)) ("T")).type
      = ("agent_message") :=
  C9_untagged_fence (("js").data) (("let x = 1").data) ("Engineer") ("GroupChat") ("T")
    (by decide) (by decide) (by decide) (by decide) (by decide) (by decide)

/-- C10, counterexample: with an empty message history the router returns the
Engineer whatever the last speaker was — in particular it re-selects the
Engineer right after the Engineer, refuting "the router never selects the
role that just spoke" over all inputs. -/
theorem C10_counterexample :
    select_next_speaker Agent.engineer [] = Agent.engineer := rfl

/-- C10, amended: on every NONEMPTY message history the router never selects
the role that just spoke, for every last-speaker value (Executor, Engineer,
Reviewer, or any other). -/
theorem C10_no_self_routing (last : Agent) (messages : List GCMsg)
    (h : messages ≠ []) : select_next_speaker last messages ≠ last := by
  cases messages with
  | nil => exact absurd rfl h
  | cons m rest =>
    cases last with
    | executor =>
      simp only [select_next_speaker]
      split
      · decide
      · split <;> decide
    | engineer => exact fun hq => Agent.noConfusion hq
    | reviewer => exact fun hq => Agent.noConfusion hq
    | other s =>
      simp only [select_next_speaker]
      intro hq
      exact Agent.noConfusion hq

/-- C10, witness: the Reviewer is never followed by the Reviewer. -/
theorem C10_witness :
    select_next_speaker Agent.reviewer [(⟨("Reviewer"), none⟩ : GCMsg)]
      ≠ Agent.reviewer :=
  C10_no_self_routing Agent.reviewer _ (List.cons_ne_nil _ _)
